import Mathlib

/-!
Verification development for the video tempo normalizer
(tempo_normalizer_v13.py).  The numeric engine is embedded shallowly over ℚ:
IEEE doubles are modelled as exact rationals, numpy arrays as lists.  The
Gaussian smoothing kernel of scipy.ndimage.gaussian_filter1d has irrational
weights, so the correlation is parameterised by an explicit rational weight
list `w`; the properties scipy guarantees for the kernel (the weights sum
to 1) appear as hypotheses where they are needed.  The dense optical-flow
statistics produced by cv2 are opaque numeric inputs, abstracted as
functions of the frame-pair index.
-/

/-- Python int() applied to a float: truncation toward zero. -/
def pyTrunc (q : ℚ) : ℤ := if 0 ≤ q then ⌊q⌋ else ⌈q⌉

/-- np.mean over a 1-d array.  For the empty array numpy yields NaN; in this
embedding the empty mean is 0/0 = 0, and every guard the code applies to such
a mean (only the comparison avg_median > 0.01 in compute_motion) evaluates to
False on both NaN and 0, so the two models agree on all control flow. -/
def mean (l : List ℚ) : ℚ := l.sum / (l.length : ℚ)

/-- MIN_TEMPO_24FPS = 1.5 (tempo_normalizer_v13.py line 30). -/
def MIN_TEMPO_24FPS : ℚ := 3/2

/-- REFERENCE_FPS = 24.0 (tempo_normalizer_v13.py line 31). -/
def REFERENCE_FPS : ℚ := 24

/-- min_acceptable = MIN_TEMPO_24FPS * (REFERENCE_FPS / fps)
(tempo_normalizer_v13.py line 155). -/
def minAcceptable (fps : ℚ) : ℚ := MIN_TEMPO_24FPS * (REFERENCE_FPS / fps)

/-- The noise-factor map of compute_motion (lines 115-121): clean for
mean/median flow quotient at least 3, floor 0.78 below 1.5, linear between. -/
def noiseFactorOf (r : ℚ) : ℚ :=
  if 3 ≤ r then 1
  else if 3/2 ≤ r then 78/100 + (r - 3/2) * (22/100 / (3/2))
  else 78/100

/-- compute_motion (lines 62-123).  The per-pair flow statistics (mean
magnitude, median magnitude, and the camera-blended subject magnitude) are
opaque inputs, given as functions of the pair index; numFrames is the length
of the frame list.  Returns the motion series and the noise factor. -/
def compute_motion (pairMean pairMedian pairBlend : ℕ → ℚ) (numFrames : ℕ)
    (compensate : Bool) : List ℚ × ℚ :=
  ((List.range (numFrames - 1)).map (fun i => if compensate then pairBlend i else pairMean i),
   noiseFactorOf
     (if 1/100 < mean ((List.range (numFrames - 1)).map pairMedian) then
        mean ((List.range (numFrames - 1)).map pairMean) /
          mean ((List.range (numFrames - 1)).map pairMedian)
      else 5))

/-- The reference-window length of compute_speed_curve_smart (lines 149-150):
ref_frames = max(10, int(fps)); ref_frames = min(ref_frames, n // 4). -/
def refFrames (fps : ℚ) (n : ℕ) : ℕ :=
  min (max 10 (pyTrunc fps)).toNat (n / 4)

/-- The zone decision of compute_speed_curve_smart (lines 163-192), returning
(reference_tempo, correction_strength) from the beginning tempos, the
fps-scaled floor and the noise factor. -/
def plannerParams (beginning_raw beginning_subject min_acceptable noise_factor : ℚ) :
    ℚ × ℚ :=
  if min_acceptable ≤ beginning_raw then
    (beginning_subject, 1/2)
  else if min_acceptable * (85/100) ≤ beginning_raw then
    if noise_factor < 95/100 then
      (beginning_subject *
         min (1 + (1 - beginning_raw / min_acceptable) * (4/10 / (15/100))) (14/10),
       min (3/10 + (1 - beginning_raw / min_acceptable) * (4/10 / (15/100))) (7/10))
    else
      (beginning_subject * (105/100), 3/10)
  else
    (max (beginning_subject * (22/10)) (min_acceptable * (12/10)), 95/100)

/-- scipy 'reflect' boundary handling ((d c b a | a b c d | d c b a)) mapping
an arbitrary integer position into [0, n). -/
def reflectIdx (n : ℕ) (i : ℤ) : ℕ :=
  if n = 0 then 0
  else if (Int.emod i (2 * n)).toNat < n then (Int.emod i (2 * n)).toNat
  else 2 * n - 1 - (Int.emod i (2 * n)).toNat

/-- gaussian_filter1d as a discrete correlation with an explicit weight list
w (the truncated, normalised Gaussian kernel) and reflect boundary mode;
the kernel radius is half the kernel length. -/
def smooth (w : List ℚ) (xs : List ℚ) : List ℚ :=
  (List.range xs.length).map (fun (i : ℕ) =>
    ((List.range w.length).map (fun (k : ℕ) =>
      w.getD k 0 *
        xs.getD (reflectIdx xs.length ((i : ℤ) + (k : ℤ) - (w.length / 2 : ℕ))) 0)).sum)

/-- The per-sample speed loop of compute_speed_curve_smart (lines 197-214):
starting from ones, each sample with subject tempo below the reference is
sped up (capped by max_speedup) and each above is slowed down (floored by
max_slowdown); a sample exactly at the reference is left at 1. -/
def rawClampedSpeed (n : ℕ) (subj : List ℚ) (reference_tempo correction_strength
    max_speedup max_slowdown : ℚ) : List ℚ :=
  (List.range n).map (fun (i : ℕ) =>
    if subj.getD i 0 / reference_tempo < 1 then
      min (1 + (reference_tempo / (subj.getD i 0 + 1/1000) - 1) * correction_strength)
        max_speedup
    else if 1 < subj.getD i 0 / reference_tempo then
      max (1 + (reference_tempo / (subj.getD i 0 + 1/1000) - 1) * correction_strength)
        max_slowdown
    else 1)

/-- The start ramp of compute_speed_curve_smart (lines 220-223): over the
first min(int(fps), n // 5) samples the curve is blended quadratically from
1 into its smoothed value. -/
def rampIn (fps : ℚ) (n : ℕ) (speed : List ℚ) : List ℚ :=
  (List.range speed.length).map (fun (i : ℕ) =>
    if i < min (pyTrunc fps).toNat (n / 5) then
      1 + (speed.getD i 0 - 1) *
        ((i : ℚ) / ((min (pyTrunc fps).toNat (n / 5) : ℕ) : ℚ))^2
    else speed.getD i 0)

/-- beginning_raw (line 151): mean of the smoothed raw series over the
reference window (whose length is taken from the raw series). -/
def beginningRawOf (w raw : List ℚ) (fps : ℚ) : ℚ :=
  mean ((smooth w raw).take (refFrames fps raw.length))

/-- beginning_subject (line 152): mean of the smoothed subject series over
the same reference window. -/
def beginningSubjectOf (w raw subj : List ℚ) (fps : ℚ) : ℚ :=
  mean ((smooth w subj).take (refFrames fps raw.length))

/-- The reference tempo the planner selects (lines 163-192). -/
def referenceTempoOf (w raw subj : List ℚ) (fps noise_factor : ℚ) : ℚ :=
  (plannerParams (beginningRawOf w raw fps) (beginningSubjectOf w raw subj fps)
    (minAcceptable fps) noise_factor).1

/-- The correction strength the planner selects (lines 163-192). -/
def correctionStrengthOf (w raw subj : List ℚ) (fps noise_factor : ℚ) : ℚ :=
  (plannerParams (beginningRawOf w raw fps) (beginningSubjectOf w raw subj fps)
    (minAcceptable fps) noise_factor).2

/-- compute_speed_curve_smart (lines 126-225), parameterised by the smoothing
kernel w.  Returns (beginning_raw, reference_tempo, smoothed_subject, speed)
exactly as the Python function does, including the n < 10 early return and
the reference_tempo < 0.001 degenerate return. -/
def compute_speed_curve_smart (w raw_motion subject_motion : List ℚ)
    (fps max_speedup max_slowdown noise_factor : ℚ) : ℚ × ℚ × List ℚ × List ℚ :=
  if raw_motion.length < 10 then
    (mean raw_motion, mean raw_motion, raw_motion, List.replicate raw_motion.length 1)
  else if referenceTempoOf w raw_motion subject_motion fps noise_factor < 1/1000 then
    (beginningRawOf w raw_motion fps,
     referenceTempoOf w raw_motion subject_motion fps noise_factor,
     smooth w subject_motion, List.replicate raw_motion.length 1)
  else
    (beginningRawOf w raw_motion fps,
     referenceTempoOf w raw_motion subject_motion fps noise_factor,
     smooth w subject_motion,
     rampIn fps raw_motion.length (smooth w
       (rawClampedSpeed raw_motion.length (smooth w subject_motion)
         (referenceTempoOf w raw_motion subject_motion fps noise_factor)
         (correctionStrengthOf w raw_motion subject_motion fps noise_factor)
         max_speedup max_slowdown)))

/-- The cumulative input-time axis of apply_speed_curve (lines 234-236):
np.insert(np.cumsum(1.0 / speed_curve), 0, 0). -/
def cumulativeTimes (speed : List ℚ) : List ℚ :=
  List.scanl (fun acc s => acc + 1 / s) 0 speed

/-- The output frame count of apply_speed_curve (lines 240-242):
n_output = max(int(n / avg_speed), n // 3). -/
def nOutput (n : ℕ) (speed : List ℚ) : ℕ :=
  max (pyTrunc ((n : ℚ) / mean speed)).toNat (n / 3)

/-- np.linspace(0, total, num): num evenly spaced points from 0 to total.
For num = 1 numpy returns [0]; here the k = 0 entry is 0 because the
division by (num - 1) = 0 yields 0 in ℚ, matching numpy on that case. -/
def linspace (total : ℚ) (num : ℕ) : List ℚ :=
  (List.range num).map (fun (k : ℕ) => total * (k : ℚ) / ((num - 1 : ℕ) : ℚ))

/-- np.searchsorted(cum, t, side='right') - 1 for a sorted cum: the number
of entries not exceeding t, minus one.  The subtraction is ℕ-truncated,
which coincides with the subsequent np.clip(idx, 0, n-1) lower clamp. -/
def searchIdx (cum : List ℚ) (t : ℚ) : ℕ :=
  cum.countP (fun c => decide (c ≤ t)) - 1

/-- The input-frame index emitted for each output sample time by
apply_speed_curve (lines 247-250), including the upper clip to n - 1. -/
def emittedIndices (n : ℕ) (speed : List ℚ) : List ℕ :=
  (linspace ((cumulativeTimes speed).getLastD 0) (nOutput n speed)).map
    (fun t => min (searchIdx (cumulativeTimes speed) t) (n - 1))

/-- apply_speed_curve (lines 228-252): nearest-preceding frame selection
along the cumulative time axis. -/
def apply_speed_curve {α : Type} [Inhabited α] (frames : List α) (speed : List ℚ) :
    List α :=
  (emittedIndices frames.length speed).map (fun idx => frames.getD idx default)

/-- Modelled from the spec: the claim C5 window formula
clamp(max(10, round(fps)), 1, n/4), with round-to-nearest as the word
"round" says (the source uses int() truncation instead). -/
def claimRefFrames (fps : ℚ) (n : ℕ) : ℕ :=
  max 1 (min (max 10 (round fps).toNat) (n / 4))

/-- An all-zero opaque flow-statistics series, used to instantiate the
abstracted per-pair inputs at concrete points. -/
def zeroSeries : ℕ → ℚ := fun _ => 0

/-! ### Helper lemmas -/

lemma map_getD_range {α : Type} (l : List α) (d : α) :
    (List.range l.length).map (fun k => l.getD k d) = l := by
  apply List.ext_getElem
  · simp
  · intro i h1 h2
    simp only [List.getElem_map, List.getElem_range]
    exact List.getD_eq_getElem l d h2

lemma getD_replicate_of_lt {α : Type} (n j : ℕ) (c d : α) (h : j < n) :
    (List.replicate n c).getD j d = c := by
  rw [List.getD_eq_getElem _ _ (by simpa using h)]
  simp

lemma reflectIdx_lt (n : ℕ) (hn : 1 ≤ n) (i : ℤ) : reflectIdx n i < n := by
  have hpos : (0:ℤ) < 2 * (n:ℤ) := by
    have : (1:ℤ) ≤ (n:ℤ) := by exact_mod_cast hn
    omega
  have h1 : 0 ≤ Int.emod i (2 * (n:ℤ)) := Int.emod_nonneg i (by omega)
  have h2 : Int.emod i (2 * (n:ℤ)) < 2 * (n:ℤ) := Int.emod_lt_of_pos i hpos
  have h3 : ((Int.emod i (2 * (n:ℤ))).toNat : ℤ) = Int.emod i (2 * (n:ℤ)) :=
    Int.toNat_of_nonneg h1
  unfold reflectIdx
  split_ifs <;> omega

lemma sum_getD_mul_range (w : List ℚ) (c : ℚ) :
    ((List.range w.length).map (fun k => w.getD k 0 * c)).sum = w.sum * c := by
  induction w with
  | nil => simp
  | cons a t ih =>
      rw [List.length_cons, List.range_succ_eq_map, List.map_cons, List.map_map,
        List.sum_cons]
      have hfun : ((fun k => (a :: t).getD k 0 * c) ∘ Nat.succ)
          = (fun k => t.getD k 0 * c) := by
        funext k
        simp [Function.comp, List.getD_cons_succ]
      rw [hfun, ih]
      simp [List.getD_cons_zero, List.sum_cons, add_mul]

lemma smooth_replicate (w : List ℚ) (hw : w.sum = 1) (n : ℕ) (c : ℚ) :
    smooth w (List.replicate n c) = List.replicate n c := by
  unfold smooth
  simp only [List.length_replicate]
  apply List.ext_getElem
  · simp
  · intro i hi1 hi2
    simp only [List.getElem_map, List.getElem_range, List.getElem_replicate]
    have hn : 1 ≤ n := by
      simp only [List.length_replicate] at hi2
      omega
    have hentry : ∀ k ∈ List.range w.length,
        w.getD k 0 *
          (List.replicate n c).getD
            (reflectIdx n ((i:ℤ) + (k:ℤ) - (w.length / 2 : ℕ))) 0
          = w.getD k 0 * c := by
      intro k _
      rw [getD_replicate_of_lt _ _ _ _ (reflectIdx_lt n hn _)]
    rw [List.map_congr_left hentry, sum_getD_mul_range, hw, one_mul]

lemma le_noiseFactorOf (r : ℚ) : 78/100 ≤ noiseFactorOf r := by
  unfold noiseFactorOf
  split_ifs <;> linarith

lemma noiseFactorOf_le_one (r : ℚ) : noiseFactorOf r ≤ 1 := by
  unfold noiseFactorOf
  split_ifs <;> linarith

lemma noiseFactorOf_mono (r s : ℚ) (h : r ≤ s) : noiseFactorOf r ≤ noiseFactorOf s := by
  unfold noiseFactorOf
  split_ifs <;> linarith

lemma length_apply_speed_curve {α : Type} [Inhabited α] (frames : List α)
    (speed : List ℚ) :
    (apply_speed_curve frames speed).length = nOutput frames.length speed := by
  simp [apply_speed_curve, emittedIndices, linspace]

lemma pyTrunc_eq_of_nonneg (q : ℚ) (z : ℤ) (h0 : 0 ≤ q) (h1 : (z:ℚ) ≤ q)
    (h2 : q < z + 1) : pyTrunc q = z := by
  unfold pyTrunc
  rw [if_pos h0, Int.floor_eq_iff]
  exact ⟨h1, h2⟩

lemma round_eq_of (q : ℚ) (z : ℤ) (h1 : (z:ℚ) ≤ q + 1/2) (h2 : q + 1/2 < z + 1) :
    round q = z := by
  rw [round_eq, Int.floor_eq_iff]
  exact ⟨h1, h2⟩

lemma pyTrunc_natCast (n : ℕ) : pyTrunc (n : ℚ) = n := by
  unfold pyTrunc
  rw [if_pos (by positivity)]
  exact_mod_cast Int.floor_natCast n

lemma mean_replicate (m : ℕ) (c : ℚ) (hm : m ≠ 0) :
    mean (List.replicate m c) = c := by
  have hm' : (m:ℚ) ≠ 0 := by exact_mod_cast hm
  unfold mean
  rw [List.sum_replicate, List.length_replicate, nsmul_eq_mul]
  field_simp

lemma mean_replicate_zero (m : ℕ) : mean (List.replicate m 0) = 0 := by
  unfold mean
  rw [List.sum_replicate, nsmul_eq_mul, mul_zero, zero_div]

lemma rawClampedSpeed_const (n : ℕ) (c ref cs mU mD : ℚ) :
    rawClampedSpeed n (List.replicate n c) ref cs mU mD = List.replicate n
      (if c / ref < 1 then min (1 + (ref / (c + 1/1000) - 1) * cs) mU
       else if 1 < c / ref then max (1 + (ref / (c + 1/1000) - 1) * cs) mD
       else 1) := by
  unfold rawClampedSpeed
  apply List.ext_getElem
  · simp
  · intro i h1 h2
    simp only [List.getElem_map, List.getElem_range, List.getElem_replicate]
    rw [getD_replicate_of_lt _ _ _ _ (by simpa using h2)]

lemma rampIn_drop_of_ge (fps : ℚ) (n m r : ℕ) (c : ℚ)
    (hr : min (pyTrunc fps).toNat (n / 5) ≤ r) :
    (rampIn fps n (List.replicate m c)).drop r = List.replicate (m - r) c := by
  unfold rampIn
  apply List.ext_getElem
  · simp
  · intro j h1 h2
    rw [List.getElem_drop]
    simp only [List.getElem_map, List.getElem_range, List.getElem_replicate,
      List.length_replicate]
    rw [if_neg (by omega)]
    have hlt : r + j < m := by
      simp only [List.length_drop, List.length_map, List.length_range,
        List.length_replicate] at h1
      omega
    rw [getD_replicate_of_lt _ _ _ _ hlt]

/-! ### Claim theorems -/

/-- C2: the noise factor produced by the motion analyzer always lies in
[0.78, 1]; it is exactly 1 for mean/median flow quotient at least 3, exactly
0.78 at or below 1.5, the stated linear interpolation on [1.5, 3), monotone
non-decreasing in the quotient, and equal to 0.89 at quotient 2.25; the
bounds hold for the factor compute_motion returns on every input. -/
theorem C2_noise_factor_map :
    (∀ r : ℚ, 78/100 ≤ noiseFactorOf r ∧ noiseFactorOf r ≤ 1) ∧
    (∀ r : ℚ, 3 ≤ r → noiseFactorOf r = 1) ∧
    (∀ r : ℚ, r ≤ 3/2 → noiseFactorOf r = 78/100) ∧
    (∀ r : ℚ, 3/2 ≤ r → r < 3 →
      noiseFactorOf r = 78/100 + (r - 3/2) * (22/100 / (3/2))) ∧
    (∀ r s : ℚ, r ≤ s → noiseFactorOf r ≤ noiseFactorOf s) ∧
    noiseFactorOf (9/4) = 89/100 ∧
    (∀ f g h : ℕ → ℚ, ∀ n : ℕ, ∀ b : Bool,
      78/100 ≤ (compute_motion f g h n b).2 ∧ (compute_motion f g h n b).2 ≤ 1) := by
  refine ⟨fun r => ⟨le_noiseFactorOf r, noiseFactorOf_le_one r⟩, ?_, ?_, ?_,
    noiseFactorOf_mono, by norm_num [noiseFactorOf], ?_⟩
  · intro r hr
    unfold noiseFactorOf
    rw [if_pos hr]
  · intro r hr
    unfold noiseFactorOf
    split_ifs with h1 h2
    · linarith
    · have : r = 3/2 := le_antisymm hr h2
      rw [this]
      ring
    · rfl
  · intro r hr h3
    unfold noiseFactorOf
    rw [if_neg (by linarith), if_pos hr]
  · intro f g h n b
    exact ⟨le_noiseFactorOf _, noiseFactorOf_le_one _⟩

/-- C2 witness: the noise-factor properties instantiated at concrete
quotients. -/
theorem C2_witness :
    (78/100 ≤ noiseFactorOf 2 ∧ noiseFactorOf 2 ≤ 1) ∧
    noiseFactorOf 4 = 1 ∧
    noiseFactorOf 1 = 78/100 ∧
    noiseFactorOf 2 = 78/100 + ((2:ℚ) - 3/2) * (22/100 / (3/2)) ∧
    noiseFactorOf 2 ≤ noiseFactorOf (5/2) ∧
    noiseFactorOf (9/4) = 89/100 ∧
    (78/100 ≤ (compute_motion zeroSeries zeroSeries zeroSeries 3 true).2 ∧
      (compute_motion zeroSeries zeroSeries zeroSeries 3 true).2 ≤ 1) :=
  ⟨C2_noise_factor_map.1 2,
   C2_noise_factor_map.2.1 4 (by norm_num),
   C2_noise_factor_map.2.2.1 1 (by norm_num),
   C2_noise_factor_map.2.2.2.1 2 (by norm_num) (by norm_num),
   C2_noise_factor_map.2.2.2.2.1 2 (5/2) (by norm_num),
   C2_noise_factor_map.2.2.2.2.2.1,
   C2_noise_factor_map.2.2.2.2.2.2 zeroSeries zeroSeries zeroSeries 3 true⟩

/-- C7: the minimum-acceptable-tempo floor computed at twice the frame rate
is exactly half the floor computed at the frame rate. -/
theorem C7_min_acceptable_scaling (fps : ℚ) (h : 0 < fps) :
    minAcceptable (2 * fps) = minAcceptable fps / 2 := by
  unfold minAcceptable MIN_TEMPO_24FPS REFERENCE_FPS
  have hne : fps ≠ 0 := ne_of_gt h
  field_simp
  ring

/-- C7 witness: the scaling law at fps = 24. -/
theorem C7_witness : (0:ℚ) < 24 ∧ minAcceptable (2 * 24) = minAcceptable 24 / 2 :=
  ⟨by norm_num, C7_min_acceptable_scaling 24 (by norm_num)⟩

/-- C5 counterexample: at fps = 10.7 with 100 samples the code's window is
min(max(10, int(10.7)), 100 // 4) = 10, while the claimed formula with
round-to-nearest gives clamp(max(10, 11), 1, 25) = 11. -/
theorem C5_counterexample :
    refFrames (107/10) 100 = 10 ∧ claimRefFrames (107/10) 100 = 11 ∧
    refFrames (107/10) 100 ≠ claimRefFrames (107/10) 100 := by
  have ht : pyTrunc (107/10) = 10 :=
    pyTrunc_eq_of_nonneg _ 10 (by norm_num) (by norm_num) (by norm_num)
  have hrnd : round ((107:ℚ)/10) = 11 := round_eq_of _ 11 (by norm_num) (by norm_num)
  have h1 : refFrames (107/10) 100 = 10 := by
    unfold refFrames
    rw [ht]
    decide
  have h2 : claimRefFrames (107/10) 100 = 11 := by
    unfold claimRefFrames
    rw [hrnd]
    decide
  exact ⟨h1, h2, by omega⟩

/-- C5 amended: for at least 10 samples the reference window length equals
clamp(max(10, trunc(fps)), 1, n / 4) with int()-style truncation toward zero
(not rounding to nearest) and floor division for n / 4; the lower clamp at 1
never binds. -/
theorem C5_window_length (fps : ℚ) (n : ℕ) (h : 10 ≤ n) :
    refFrames fps n = max 1 (min (max 10 (pyTrunc fps)).toNat (n / 4)) := by
  unfold refFrames
  have h4 : 2 ≤ n / 4 := by omega
  have h10 : 10 ≤ (max 10 (pyTrunc fps)).toNat := by
    have h1 : (10:ℤ) ≤ max 10 (pyTrunc fps) := le_max_left _ _
    omega
  omega

/-- C5 witness: the amended window formula at fps = 24, n = 100. -/
theorem C5_witness :
    10 ≤ 100 ∧ refFrames 24 100 = max 1 (min (max 10 (pyTrunc 24)).toNat (100 / 4)) :=
  ⟨by norm_num, C5_window_length 24 100 (by norm_num)⟩

/-- C8: with fewer than 2 frames the motion analyzer returns an empty motion
series and noise factor exactly 1, whatever the opaque flow statistics and
the camera-compensation flag; and this is the only special case: for 2 or
more frames it always returns the normal result of one motion sample per
consecutive frame pair. -/
theorem C8_empty_input :
    (∀ f g h : ℕ → ℚ, ∀ n : ℕ, ∀ b : Bool, n < 2 →
      compute_motion f g h n b = ([], 1)) ∧
    (∀ f g h : ℕ → ℚ, ∀ n : ℕ, ∀ b : Bool, 2 ≤ n →
      (compute_motion f g h n b).1.length = n - 1) := by
  constructor
  · intro f g h n b hn
    have h0 : n - 1 = 0 := by omega
    norm_num [compute_motion, h0, mean, noiseFactorOf]
  · intro f g h n b hn
    simp [compute_motion]

/-- C8 witness: the empty-input result at 1 frame and the normal sample
count at 5 frames, with all-zero opaque flow statistics. -/
theorem C8_witness :
    (1 < 2 ∧ compute_motion zeroSeries zeroSeries zeroSeries 1 true = ([], 1)) ∧
    (2 ≤ 5 ∧ (compute_motion zeroSeries zeroSeries zeroSeries 5 true).1.length = 5 - 1) :=
  ⟨⟨by norm_num, C8_empty_input.1 zeroSeries zeroSeries zeroSeries 1 true (by norm_num)⟩,
   ⟨by norm_num, C8_empty_input.2 zeroSeries zeroSeries zeroSeries 5 true (by norm_num)⟩⟩

/-- C1 counterexample: with reference tempo exactly 0.001 (which passes the
referenceTempo >= 0.001 guard), correction strength 0.95 and subject samples
0.0009, every pre-smoothing clamped value is 0.55, strictly below
maxSlowdown = 0.6, refuting the claimed lower bound. -/
theorem C1_counterexample :
    (11/20 : ℚ) ∈ rawClampedSpeed 10 (List.replicate 10 (9/10000)) (1/1000) (19/20)
      2 (3/5) ∧
    (11/20 : ℚ) < 3/5 ∧ ¬ ((1/1000 : ℚ) < 1/1000) := by
  refine ⟨?_, by norm_num, by norm_num⟩
  rw [rawClampedSpeed_const]
  have hv : (if (9/10000 : ℚ) / (1/1000) < 1 then
      min (1 + ((1:ℚ)/1000 / (9/10000 + 1/1000) - 1) * (19/20)) 2
    else if 1 < (9/10000 : ℚ) / (1/1000) then
      max (1 + ((1:ℚ)/1000 / (9/10000 + 1/1000) - 1) * (19/20)) (3/5)
    else 1) = 11/20 := by
    rw [if_pos (by norm_num), min_eq_left (by norm_num)]
    norm_num
  rw [hv]
  simp

/-- C1 amended: after the per-sample clamping step every value is at most
maxSpeedup, and at least min(maxSlowdown, 1 - cs/(1000*ref + 1)); the
original lower bound maxSlowdown can be undershot only when the reference
tempo is within a factor of about 2.4 of the 0.001 guard, because the
speed-up branch applies no maxSlowdown clamp. -/
theorem C1_rawclamp_bounds (n : ℕ) (subj : List ℚ) (ref cs mU mD : ℚ)
    (hsub : ∀ x ∈ subj, 0 ≤ x) (href : 1/1000 ≤ ref) (hcs : 0 ≤ cs)
    (hd : mD ≤ 1) (hu : 1 ≤ mU) :
    ∀ v ∈ rawClampedSpeed n subj ref cs mU mD,
      min mD (1 - cs * (1/1000) / (ref + 1/1000)) ≤ v ∧ v ≤ mU := by
  intro v hv
  unfold rawClampedSpeed at hv
  simp only [List.mem_map, List.mem_range] at hv
  obtain ⟨i, hi, rfl⟩ := hv
  have hs : 0 ≤ subj.getD i 0 := by
    by_cases hil : i < subj.length
    · rw [List.getD_eq_getElem _ _ hil]
      exact hsub _ (List.getElem_mem hil)
    · rw [List.getD_eq_default _ _ (by omega)]
  set s := subj.getD i 0 with hs_def
  have hrefpos : (0:ℚ) < ref := lt_of_lt_of_le (by norm_num) href
  have hsden : (0:ℚ) < s + 1/1000 := by linarith
  have hrden : (0:ℚ) < ref + 1/1000 := by linarith
  have hL : 1 - cs * (1/1000) / (ref + 1/1000) = 1 + (ref / (ref + 1/1000) - 1) * cs := by
    field_simp
    ring
  split_ifs with h1 h2
  · have hslt : s < ref := (div_lt_one hrefpos).mp h1
    have hkey : ref / (ref + 1/1000) ≤ ref / (s + 1/1000) := by
      rw [div_le_div_iff₀ hrden hsden]
      nlinarith
    have hup : 1 + (ref / (ref + 1/1000) - 1) * cs ≤ 1 + (ref / (s + 1/1000) - 1) * cs := by
      nlinarith
    have hr1 : ref / (ref + 1/1000) ≤ 1 := by
      rw [div_le_one hrden]
      linarith
    have hLle1 : 1 + (ref / (ref + 1/1000) - 1) * cs ≤ 1 := by nlinarith
    constructor
    · rw [hL]
      rcases le_or_lt (1 + (ref / (s + 1/1000) - 1) * cs) mU with hc | hc
      · rw [min_eq_left hc]
        exact le_trans (min_le_right _ _) hup
      · rw [min_eq_right (le_of_lt hc)]
        exact le_trans (min_le_right _ _) (le_trans hLle1 hu)
    · exact min_le_right _ _
  · have hslt : ref < s := (one_lt_div hrefpos).mp h2
    have hneed : ref / (s + 1/1000) < 1 := by
      rw [div_lt_one hsden]
      linarith
    constructor
    · exact le_trans (min_le_left _ _) (le_max_right _ _)
    · apply max_le _ (le_trans hd hu)
      have hnp : (ref / (s + 1/1000) - 1) * cs ≤ 0 :=
        mul_nonpos_of_nonpos_of_nonneg (by linarith) hcs
      linarith
  · exact ⟨le_trans (min_le_left _ _) hd, hu⟩

/-- C1 witness: the amended bounds instantiated at three zero samples,
reference tempo 1, strength 0.5, maxSpeedup 2, maxSlowdown 0.6, at the
clamped output value 2. -/
theorem C1_witness :
    (1/1000 : ℚ) ≤ 1 ∧ (0:ℚ) ≤ 1/2 ∧ (3/5:ℚ) ≤ 1 ∧ (1:ℚ) ≤ 2 ∧
    min (3/5 : ℚ) (1 - (1/2) * (1/1000) / (1 + 1/1000)) ≤ 2 ∧ (2:ℚ) ≤ 2 := by
  have hmem : (2:ℚ) ∈ rawClampedSpeed 3 (List.replicate 3 0) 1 (1/2) 2 (3/5) := by
    rw [rawClampedSpeed_const]
    have hv : (if (0 : ℚ) / 1 < 1 then
        min (1 + ((1:ℚ) / (0 + 1/1000) - 1) * (1/2)) 2
      else if 1 < (0 : ℚ) / 1 then
        max (1 + ((1:ℚ) / (0 + 1/1000) - 1) * (1/2)) (3/5)
      else 1) = 2 := by
      rw [if_pos (by norm_num), min_eq_right (by norm_num)]
    rw [hv]
    simp
  have h := C1_rawclamp_bounds 3 (List.replicate 3 0) 1 (1/2) 2 (3/5)
    (by intro x hx; rw [List.eq_of_mem_replicate hx]) (by norm_num) (by norm_num)
    (by norm_num) (by norm_num) 2 hmem
  exact ⟨by norm_num, by norm_num, by norm_num, by norm_num, h.1, h.2⟩

lemma scanl_replicate_one (m : ℕ) :
    ∀ a : ℚ, List.scanl (fun acc s => acc + 1 / s) a (List.replicate m 1) =
      (List.range (m+1)).map (fun (k : ℕ) => a + (k:ℚ)) := by
  induction m with
  | zero =>
      intro a
      simp [List.range_succ]
  | succ m ih =>
      intro a
      rw [List.replicate_succ, List.scanl_cons, ih (a + 1/1)]
      rw [List.range_succ_eq_map (m+1), List.map_cons, List.map_map,
        List.singleton_append]
      congr 1
      · simp
      · refine List.map_congr_left fun k hk => ?_
        simp only [Function.comp_apply]
        push_cast
        ring

lemma cumulativeTimes_replicate_one (m : ℕ) :
    cumulativeTimes (List.replicate m 1) =
      (List.range (m+1)).map (fun (k : ℕ) => (k:ℚ)) := by
  unfold cumulativeTimes
  rw [scanl_replicate_one m 0]
  apply List.map_congr_left
  intro k hk
  simp

lemma getLastD_cumulative_replicate_one (m : ℕ) :
    (cumulativeTimes (List.replicate m 1)).getLastD 0 = (m:ℚ) := by
  rw [cumulativeTimes_replicate_one, List.range_succ, List.map_append]
  exact List.getLastD_concat _ _ _

lemma countP_cast_range (m k : ℕ) :
    ((List.range m).map (fun (j : ℕ) => (j:ℚ))).countP (fun c => decide (c ≤ (k:ℚ)))
      = min (k+1) m := by
  induction m with
  | zero => simp
  | succ m ih =>
      rw [List.range_succ, List.map_append, List.countP_append, ih]
      by_cases h : m ≤ k
      · have hq : ((m:ℚ) ≤ (k:ℚ)) := by exact_mod_cast h
        simp only [List.map_cons, List.map_nil, List.countP_cons, List.countP_nil]
        simp [hq]
        omega
      · have hq : ¬ ((m:ℚ) ≤ (k:ℚ)) := by exact_mod_cast h
        simp only [List.map_cons, List.map_nil, List.countP_cons, List.countP_nil]
        simp [hq]
        omega

/-- C3: feeding the resampler the identity speed curve (one multiplier per
motion sample, all equal to 1) returns the input frame sequence unchanged:
same length, same order, no frame dropped or duplicated. -/
theorem C3_resampler_identity {α : Type} [Inhabited α] (frames : List α)
    (h : 2 ≤ frames.length) :
    apply_speed_curve frames (List.replicate (frames.length - 1) 1) = frames := by
  set n := frames.length with hn
  set m := n - 1 with hm_def
  have hm1 : 1 ≤ m := by omega
  have hmq : ((m:ℚ)) ≠ 0 := by
    have : m ≠ 0 := by omega
    exact_mod_cast this
  have hmean : mean (List.replicate m 1) = 1 := mean_replicate m 1 (by omega)
  have hnout : nOutput n (List.replicate m 1) = n := by
    unfold nOutput
    rw [hmean, div_one, pyTrunc_natCast]
    have : ((n:ℤ)).toNat = n := Int.toNat_natCast n
    omega
  unfold apply_speed_curve emittedIndices
  rw [getLastD_cumulative_replicate_one m, hnout, cumulativeTimes_replicate_one m]
  rw [List.map_map]
  unfold linspace
  rw [List.map_map, ← hm_def]
  refine (List.map_congr_left ?_).trans (map_getD_range frames default)
  intro k hk
  have hk' : k < n := List.mem_range.mp hk
  simp only [Function.comp]
  rw [mul_div_cancel_left₀ ((k:ℚ)) hmq]
  unfold searchIdx
  rw [countP_cast_range (m+1) k]
  congr 1
  omega

/-- C3 witness: the identity curve leaves a concrete three-frame clip
untouched. -/
theorem C3_witness :
    2 ≤ ([10, 20, 30] : List ℕ).length ∧
    apply_speed_curve ([10, 20, 30] : List ℕ)
      (List.replicate (([10, 20, 30] : List ℕ).length - 1) 1) = [10, 20, 30] :=
  ⟨by norm_num, C3_resampler_identity [10, 20, 30] (by norm_num)⟩

/-- C4 counterexample: 7 input frames with a uniform speed curve of 2.0 give
7/2 = 3.5; the code truncates via int() to 3 output frames, while the
claimed round() would give 4. -/
theorem C4_counterexample :
    (apply_speed_curve (List.range 7) (List.replicate 6 2)).length = 3 ∧
    round ((7:ℚ) / mean (List.replicate 6 2)) = 4 ∧
    ((apply_speed_curve (List.range 7) (List.replicate 6 2)).length : ℤ) ≠
      round ((7:ℚ) / mean (List.replicate 6 2)) := by
  have hmean : mean (List.replicate 6 (2:ℚ)) = 2 := mean_replicate 6 2 (by norm_num)
  have hlen : (apply_speed_curve (List.range 7) (List.replicate 6 2)).length = 3 := by
    rw [length_apply_speed_curve]
    unfold nOutput
    simp only [List.length_range, Nat.cast_ofNat]
    rw [hmean, pyTrunc_eq_of_nonneg ((7:ℚ)/2) 3 (by norm_num) (by norm_num) (by norm_num)]
    decide
  have hrnd : round ((7:ℚ) / mean (List.replicate 6 2)) = 4 := by
    rw [hmean]
    exact round_eq_of _ 4 (by norm_num) (by norm_num)
  exact ⟨hlen, hrnd, by rw [hlen, hrnd]; norm_num⟩

/-- C4 amended: the resampler's output frame count is
max(trunc(n / mean(speed)), n // 3) with int()-style truncation (not
rounding to nearest); the Scenario C instance holds: 90 frames at uniform
speed 2.0 yield exactly 45 output frames. -/
theorem C4_output_count {α : Type} [Inhabited α] (frames : List α) (speed : List ℚ) :
    (apply_speed_curve frames speed).length =
      max (pyTrunc ((frames.length : ℚ) / mean speed)).toNat (frames.length / 3) ∧
    (apply_speed_curve (List.range 90) (List.replicate 89 2)).length = 45 := by
  constructor
  · rw [length_apply_speed_curve]
    rfl
  · rw [length_apply_speed_curve]
    unfold nOutput
    have hmean : mean (List.replicate 89 (2:ℚ)) = 2 := mean_replicate 89 2 (by norm_num)
    simp only [List.length_range, Nat.cast_ofNat]
    rw [hmean,
      pyTrunc_eq_of_nonneg ((90:ℚ)/2) 45 (by norm_num) (by norm_num) (by norm_num)]
    decide

/-- C6: for 100 samples at 24 fps with both motion series constant 0.5 and
any unit-sum smoothing kernel, the planner lands in the Slow zone
(0.5 < borderline threshold 1.275), selects reference tempo 1.8 and
correction strength 0.95, and the returned curve is exactly 2.0 at every
sample from the end of the ramp (sample 20) onward. -/
theorem C6_scenario_b (w : List ℚ) (hw : w.sum = 1) :
    (compute_speed_curve_smart w (List.replicate 100 (1/2)) (List.replicate 100 (1/2))
      24 2 (3/5) 1).1 = 1/2 ∧
    beginningRawOf w (List.replicate 100 (1/2)) 24 < minAcceptable 24 * (85/100) ∧
    referenceTempoOf w (List.replicate 100 (1/2)) (List.replicate 100 (1/2)) 24 1
      = 9/5 ∧
    correctionStrengthOf w (List.replicate 100 (1/2)) (List.replicate 100 (1/2)) 24 1
      = 19/20 ∧
    ((compute_speed_curve_smart w (List.replicate 100 (1/2))
      (List.replicate 100 (1/2)) 24 2 (3/5) 1).2.2.2).drop 20
      = List.replicate 80 2 := by
  have hsm12 : smooth w (List.replicate 100 (1/2 : ℚ)) = List.replicate 100 (1/2) :=
    smooth_replicate w hw 100 (1/2)
  have hsm2 : smooth w (List.replicate 100 (2 : ℚ)) = List.replicate 100 2 :=
    smooth_replicate w hw 100 2
  have ht24 : pyTrunc 24 = 24 :=
    pyTrunc_eq_of_nonneg 24 24 (by norm_num) (by norm_num) (by norm_num)
  have hrf : refFrames 24 100 = 24 := by
    unfold refFrames
    rw [ht24]
    decide
  have hbr : beginningRawOf w (List.replicate 100 (1/2)) 24 = 1/2 := by
    unfold beginningRawOf
    rw [hsm12]
    simp only [List.length_replicate]
    rw [hrf, List.take_replicate, mean_replicate _ _ (by norm_num)]
  have hbs : beginningSubjectOf w (List.replicate 100 (1/2))
      (List.replicate 100 (1/2)) 24 = 1/2 := by
    unfold beginningSubjectOf
    rw [hsm12]
    simp only [List.length_replicate]
    rw [hrf, List.take_replicate, mean_replicate _ _ (by norm_num)]
  have hmin : minAcceptable 24 = 3/2 := by
    norm_num [minAcceptable, MIN_TEMPO_24FPS, REFERENCE_FPS]
  have hpp : plannerParams (1/2) (1/2) (3/2) 1 = (9/5, 19/20) := by
    unfold plannerParams
    rw [if_neg (by norm_num), if_neg (by norm_num), max_eq_right (by norm_num)]
    norm_num
  have hrt : referenceTempoOf w (List.replicate 100 (1/2))
      (List.replicate 100 (1/2)) 24 1 = 9/5 := by
    unfold referenceTempoOf
    rw [hbr, hbs, hmin, hpp]
  have hcs : correctionStrengthOf w (List.replicate 100 (1/2))
      (List.replicate 100 (1/2)) 24 1 = 19/20 := by
    unfold correctionStrengthOf
    rw [hbr, hbs, hmin, hpp]
  have hrcs : rawClampedSpeed 100 (List.replicate 100 (1/2)) (9/5) (19/20) 2 (3/5)
      = List.replicate 100 2 := by
    rw [rawClampedSpeed_const]
    congr 1
    rw [if_pos (by norm_num), min_eq_right (by norm_num)]
  have hcurve : compute_speed_curve_smart w (List.replicate 100 (1/2))
      (List.replicate 100 (1/2)) 24 2 (3/5) 1
      = (1/2, 9/5, List.replicate 100 (1/2), rampIn 24 100 (List.replicate 100 2)) := by
    unfold compute_speed_curve_smart
    rw [if_neg (by norm_num [List.length_replicate]), hrt, if_neg (by norm_num)]
    simp only [List.length_replicate]
    rw [hbr, hsm12, hcs, hrcs, hsm2]
  have hdrop : (rampIn 24 100 (List.replicate 100 (2:ℚ))).drop 20
      = List.replicate 80 2 := by
    have h20 := rampIn_drop_of_ge 24 100 100 20 (2:ℚ) (by rw [ht24]; decide)
    simpa using h20
  exact ⟨by rw [hcurve], by rw [hbr, hmin]; norm_num, hrt, hcs, by rw [hcurve]; exact hdrop⟩

/-- C6 witness: Scenario B with the concrete unit-sum kernel [1]. -/
theorem C6_witness :
    ([1] : List ℚ).sum = 1 ∧
    (compute_speed_curve_smart [1] (List.replicate 100 (1/2))
      (List.replicate 100 (1/2)) 24 2 (3/5) 1).1 = 1/2 ∧
    beginningRawOf [1] (List.replicate 100 (1/2)) 24 < minAcceptable 24 * (85/100) ∧
    referenceTempoOf [1] (List.replicate 100 (1/2)) (List.replicate 100 (1/2)) 24 1
      = 9/5 ∧
    correctionStrengthOf [1] (List.replicate 100 (1/2)) (List.replicate 100 (1/2)) 24 1
      = 19/20 ∧
    ((compute_speed_curve_smart [1] (List.replicate 100 (1/2))
      (List.replicate 100 (1/2)) 24 2 (3/5) 1).2.2.2).drop 20
      = List.replicate 80 2 := by
  have h := C6_scenario_b [1] (by simp)
  exact ⟨by simp, h.1, h.2.1, h.2.2.1, h.2.2.2.1, h.2.2.2.2⟩

/-- C9: the planner returns the all-ones identity curve, by a normal return
rather than an exception, in both degenerate situations: fewer than 10
motion samples, and a selected reference tempo below 0.001. -/
theorem C9_identity_guards :
    (∀ w raw subj : List ℚ, ∀ fps mU mD nf : ℚ, raw.length < 10 →
      (compute_speed_curve_smart w raw subj fps mU mD nf).2.2.2 =
        List.replicate raw.length 1) ∧
    (∀ w raw subj : List ℚ, ∀ fps mU mD nf : ℚ, 10 ≤ raw.length →
      referenceTempoOf w raw subj fps nf < 1/1000 →
      (compute_speed_curve_smart w raw subj fps mU mD nf).2.2.2 =
        List.replicate raw.length 1) := by
  constructor
  · intro w raw subj fps mU mD nf hn
    unfold compute_speed_curve_smart
    rw [if_pos hn]
  · intro w raw subj fps mU mD nf hn href
    unfold compute_speed_curve_smart
    rw [if_neg (by omega), if_pos href]

/-- C9 witness: the short-input guard at 5 samples and the degenerate-tempo
guard at 12 zero samples with fps 1000000 (reference tempo 27/625000 < 0.001),
both with kernel [1]. -/
theorem C9_witness :
    ((List.replicate 5 (0:ℚ)).length < 10 ∧
      (compute_speed_curve_smart [1] (List.replicate 5 0) (List.replicate 5 0)
        24 2 (3/5) 1).2.2.2 = List.replicate (List.replicate 5 (0:ℚ)).length 1) ∧
    (10 ≤ (List.replicate 12 (0:ℚ)).length ∧
      referenceTempoOf [1] (List.replicate 12 0) (List.replicate 12 0) 1000000 1
        < 1/1000 ∧
      (compute_speed_curve_smart [1] (List.replicate 12 0) (List.replicate 12 0)
        1000000 2 (3/5) 1).2.2.2 = List.replicate (List.replicate 12 (0:ℚ)).length 1) := by
  have href : referenceTempoOf [1] (List.replicate 12 0) (List.replicate 12 0)
      1000000 1 < 1/1000 := by
    have hsm : smooth [1] (List.replicate 12 (0:ℚ)) = List.replicate 12 0 :=
      smooth_replicate [1] (by simp) 12 0
    have hbr : beginningRawOf [1] (List.replicate 12 0) 1000000 = 0 := by
      unfold beginningRawOf
      rw [hsm, List.take_replicate, mean_replicate_zero]
    have hbs : beginningSubjectOf [1] (List.replicate 12 0) (List.replicate 12 0)
        1000000 = 0 := by
      unfold beginningSubjectOf
      rw [hsm, List.take_replicate, mean_replicate_zero]
    have hmin : minAcceptable 1000000 = 9/250000 := by
      norm_num [minAcceptable, MIN_TEMPO_24FPS, REFERENCE_FPS]
    unfold referenceTempoOf
    rw [hbr, hbs, hmin]
    unfold plannerParams
    rw [if_neg (by norm_num), if_neg (by norm_num)]
    rw [max_eq_right (by norm_num)]
    norm_num
  exact ⟨⟨by norm_num, C9_identity_guards.1 [1] _ _ 24 2 (3/5) 1 (by norm_num)⟩,
    ⟨by norm_num, href, C9_identity_guards.2 [1] _ _ 1000000 2 (3/5) 1 (by norm_num) href⟩⟩

lemma head?_scanl (f : ℚ → ℚ → ℚ) (b : ℚ) (l : List ℚ) :
    (List.scanl f b l).head? = some b := by
  cases l <;> simp [List.scanl_cons]

lemma chain'_lt_scanl (l : List ℚ) : ∀ a : ℚ, (∀ s ∈ l, 0 < s) →
    List.Chain' (· < ·) (List.scanl (fun acc s => acc + 1 / s) a l) := by
  induction l with
  | nil =>
      intro a _
      simp
  | cons s t ih =>
      intro a hpos
      rw [List.scanl_cons, List.singleton_append]
      rw [List.chain'_cons']
      constructor
      · intro y hy
        rw [head?_scanl] at hy
        have h1 : (0:ℚ) < 1 / s := by
          have := hpos s (by simp)
          positivity
        simp only [Option.mem_def, Option.some.injEq] at hy
        rw [← hy]
        linarith
      · exact ih (a + 1 / s) (fun x hx => hpos x (List.mem_cons_of_mem s hx))

lemma mem_scanl_le (l : List ℚ) : ∀ a : ℚ, (∀ s ∈ l, 0 < s) →
    ∀ c ∈ List.scanl (fun acc s => acc + 1 / s) a l, a ≤ c := by
  induction l with
  | nil =>
      intro a _ c hc
      simp at hc
      rw [hc]
  | cons s t ih =>
      intro a hpos c hc
      rw [List.scanl_cons, List.singleton_append, List.mem_cons] at hc
      have h1 : (0:ℚ) < 1 / s := by
        have := hpos s (by simp)
        positivity
      rcases hc with rfl | hc
      · exact le_refl c
      · have := ih (a + 1 / s) (fun x hx => hpos x (List.mem_cons_of_mem s hx)) c hc
        linarith

lemma getLastD_mem (l : List ℚ) (d : ℚ) (h : l ≠ []) : l.getLastD d ∈ l := by
  rcases List.eq_nil_or_concat l with rfl | ⟨l', a, rfl⟩
  · exact absurd rfl h
  · rw [List.concat_eq_append, List.getLastD_concat]
    simp

lemma countP_le_of_le (l : List ℚ) (t u : ℚ) (h : t ≤ u) :
    l.countP (fun c => decide (c ≤ t)) ≤ l.countP (fun c => decide (c ≤ u)) := by
  induction l with
  | nil => simp
  | cons a s ih =>
      rw [List.countP_cons, List.countP_cons]
      by_cases ha : a ≤ t
      · have hb : a ≤ u := le_trans ha h
        simp [ha, hb]
        omega
      · by_cases hb : a ≤ u <;> simp [ha, hb] <;> omega

lemma cumulativeTimes_ne_nil (speed : List ℚ) : cumulativeTimes speed ≠ [] := by
  unfold cumulativeTimes
  cases speed <;> simp [List.scanl_cons]

lemma searchIdx_zero_of_pos (speed : List ℚ) (hs : speed ≠ [])
    (hpos : ∀ s ∈ speed, 0 < s) :
    searchIdx (cumulativeTimes speed) 0 = 0 := by
  obtain ⟨s, rest, rfl⟩ := List.exists_cons_of_ne_nil hs
  unfold searchIdx cumulativeTimes
  rw [List.scanl_cons, List.singleton_append, List.countP_cons]
  have htail : (List.scanl (fun acc x => acc + 1 / x) (0 + 1 / s) rest).countP
      (fun c => decide (c ≤ 0)) = 0 := by
    rw [List.countP_eq_zero]
    intro c hc
    have h1 : 0 + 1 / s ≤ c :=
      mem_scanl_le rest (0 + 1 / s) (fun x hx => hpos x (List.mem_cons_of_mem s hx)) c hc
    have h2 : (0:ℚ) < 1 / s := by
      have := hpos s (by simp)
      positivity
    simp only [decide_eq_true_eq]
    linarith
  rw [htail]
  simp

/-- C10 counterexample: 2 frames with the strictly positive speed curve [5]
make the resampler emit no frame at all (output count
max(int(2/5), 2 // 3) = 0), so there is no first emitted frame even though
the input is non-empty. -/
theorem C10_counterexample :
    ([10, 20] : List ℕ) ≠ [] ∧ (0:ℚ) < 5 ∧
    apply_speed_curve ([10, 20] : List ℕ) [5] = [] := by
  refine ⟨by simp, by norm_num, ?_⟩
  have hmean : mean ([5] : List ℚ) = 5 := by
    unfold mean
    norm_num
  have hn : nOutput 2 [5] = 0 := by
    unfold nOutput
    simp only [Nat.cast_ofNat]
    rw [hmean, pyTrunc_eq_of_nonneg ((2:ℚ)/5) 0 (by norm_num) (by norm_num) (by norm_num)]
    decide
  have hemp : emittedIndices 2 [5] = [] := by
    unfold emittedIndices
    rw [hn]
    simp [linspace]
  have hlen2 : ([10, 20] : List ℕ).length = 2 := rfl
  unfold apply_speed_curve
  rw [hlen2, hemp]
  simp

/-- C10 amended: for a non-empty frame list and a non-empty strictly
positive speed curve, the cumulative time axis is strictly increasing, the
emitted input-frame indices are non-decreasing, and the output is either
empty (possible for very short inputs, as 2 frames at speed 5 show) or
starts with the first input frame. -/
theorem C10_resampler_order {α : Type} [Inhabited α] (frames : List α)
    (speed : List ℚ) (hf : frames ≠ []) (hs : speed ≠ [])
    (hpos : ∀ s ∈ speed, 0 < s) :
    List.Pairwise (· < ·) (cumulativeTimes speed) ∧
    List.Pairwise (· ≤ ·) (emittedIndices frames.length speed) ∧
    (apply_speed_curve frames speed = [] ∨
      (apply_speed_curve frames speed).head? = frames.head?) := by
  have hchain : List.Chain' (· < ·) (cumulativeTimes speed) :=
    chain'_lt_scanl speed 0 hpos
  have hpw : List.Pairwise (· < ·) (cumulativeTimes speed) :=
    List.chain'_iff_pairwise.mp hchain
  have hcum0 : ∀ c ∈ cumulativeTimes speed, 0 ≤ c := mem_scanl_le speed 0 hpos
  have hT : 0 ≤ (cumulativeTimes speed).getLastD 0 :=
    hcum0 _ (getLastD_mem _ _ (cumulativeTimes_ne_nil speed))
  refine ⟨hpw, ?_, ?_⟩
  · unfold emittedIndices linspace
    rw [List.map_map]
    refine List.Pairwise.map _ ?_ (List.pairwise_lt_range _)
    intro a b hab
    simp only [Function.comp_apply]
    have hts : (cumulativeTimes speed).getLastD 0 * (a:ℚ) /
        ((nOutput frames.length speed - 1 : ℕ) : ℚ) ≤
        (cumulativeTimes speed).getLastD 0 * (b:ℚ) /
        ((nOutput frames.length speed - 1 : ℕ) : ℚ) := by
      rcases eq_or_ne (((nOutput frames.length speed - 1 : ℕ)) : ℚ) 0 with hd | hd
      · rw [hd, div_zero, div_zero]
      · have hdpos : 0 < (((nOutput frames.length speed - 1 : ℕ)) : ℚ) :=
          lt_of_le_of_ne (by positivity) (Ne.symm hd)
        apply (div_le_div_iff_of_pos_right hdpos).mpr
        have : (a:ℚ) ≤ (b:ℚ) := by exact_mod_cast le_of_lt hab
        exact mul_le_mul_of_nonneg_left this hT
    have hcount := countP_le_of_le (cumulativeTimes speed) _ _ hts
    unfold searchIdx
    exact min_le_min (Nat.sub_le_sub_right hcount 1) (le_refl _)
  · by_cases hzero : nOutput frames.length speed = 0
    · left
      have := length_apply_speed_curve frames speed
      rw [hzero] at this
      exact List.eq_nil_of_length_eq_zero this
    · right
      obtain ⟨num, hnum⟩ : ∃ k, nOutput frames.length speed = k + 1 :=
        ⟨_, (Nat.succ_pred_eq_of_pos (Nat.pos_of_ne_zero hzero)).symm⟩
      unfold apply_speed_curve emittedIndices linspace
      rw [hnum, List.range_succ_eq_map, List.map_cons, List.map_cons, List.map_cons]
      simp only [List.head?_cons, Nat.cast_zero, mul_zero, zero_div]
      rw [searchIdx_zero_of_pos speed hs hpos]
      obtain ⟨x, t, rfl⟩ := List.exists_cons_of_ne_nil hf
      simp

/-- C10 witness: the amended resampler ordering facts at 4 frames with the
uniform positive speed curve [1, 1, 1]. -/
theorem C10_witness :
    ([5, 6, 7, 8] : List ℕ) ≠ [] ∧ ([1, 1, 1] : List ℚ) ≠ [] ∧
    List.Pairwise (· < ·) (cumulativeTimes [1, 1, 1]) ∧
    List.Pairwise (· ≤ ·) (emittedIndices ([5, 6, 7, 8] : List ℕ).length [1, 1, 1]) ∧
    (apply_speed_curve ([5, 6, 7, 8] : List ℕ) [1, 1, 1] = [] ∨
      (apply_speed_curve ([5, 6, 7, 8] : List ℕ) [1, 1, 1]).head? =
        ([5, 6, 7, 8] : List ℕ).head?) := by
  have h := C10_resampler_order ([5, 6, 7, 8] : List ℕ) [1, 1, 1] (by simp) (by simp)
    (by
      intro s hs2
      simp at hs2
      rw [hs2]
      norm_num)
  exact ⟨by simp, by simp, h.1, h.2.1, h.2.2⟩
